import Mathlib

/- Shallow embedding of the dual-backend virtual file store of the
   test-report dashboard backend.

   Sources embedded:
   - src/src/services/fileService.ts : path normalizer, filesystem adapter,
     store adapter calls, archive builder, orchestrator operations;
   - the HTTP controllers (getFileContentHandler) and the health route.

   JavaScript strings are modelled as Lean String values; the primitive
   operations (split, toLowerCase, includes, replace, substring, join) are
   re-implemented on List Char so that every definition evaluates by kernel
   reduction.  The MongoDB connection is modelled as a Store record: a
   connected flag (mongoose.connection.readyState equal to 1), a failing
   flag (a driver query rejects), and the persisted documents.  The on-disk
   data directory is modelled as an FSNode tree; the fault constructor
   stands for a directory entry whose stat or read raises a filesystem
   error.  Timestamps and the advisory metadata bag other than description
   are omitted: no embedded operation branches on them. -/

namespace TestReportBackend

/-- JS String.prototype.split with a one-character separator, on char lists. -/
def splitChars (sep : Char) : List Char → List (List Char)
  | [] => [[]]
  | c :: rest =>
    if c = sep then [] :: splitChars sep rest
    else
      match splitChars sep rest with
      | [] => [[c]]
      | s :: ss => (c :: s) :: ss

/-- JS String.prototype.toLowerCase, on char lists. -/
def lowerChars (l : List Char) : List Char := l.map Char.toLower

/-- List prefix test, Bool valued. -/
def isPrefixL : List Char → List Char → Bool
  | [], _ => true
  | _ :: _, [] => false
  | a :: as, b :: bs => a == b && isPrefixL as bs

/-- JS String.prototype.includes: needle occurs contiguously in hay. -/
def containsSub (needle : List Char) : List Char → Bool
  | [] => needle.isEmpty
  | c :: rest => isPrefixL needle (c :: rest) || containsSub needle rest

/-- JS Array.prototype.join with separator "/", on split segments. -/
def joinSlash : List (List Char) → List Char
  | [] => []
  | [s] => s
  | s :: rest => s ++ '/' :: joinSlash rest

/-- JS String.prototype.replace with a plain (non-regex) pattern:
replace the first occurrence of pat by rep. -/
def replaceFirstL (pat rep : List Char) : List Char → List Char
  | [] => if isPrefixL pat [] then rep ++ ([] : List Char).drop pat.length else []
  | c :: rest =>
    if isPrefixL pat (c :: rest) then rep ++ (c :: rest).drop pat.length
    else c :: replaceFirstL pat rep rest

/-- One step of the regex replace of /\/+/g : collapse every run of
consecutive slashes into a single slash. -/
def collapseSlashes : List Char → List Char
  | [] => []
  | [c] => [c]
  | a :: b :: rest =>
    if a = '/' ∧ b = '/' then collapseSlashes (b :: rest)
    else a :: collapseSlashes (b :: rest)

/-- The regex replace of /\/$/ : drop a single trailing slash. -/
def stripTrailingSlash : List Char → List Char
  | [] => []
  | [c] => if c = '/' then [] else [c]
  | a :: b :: rest => a :: stripTrailingSlash (b :: rest)

/-- No two adjacent slashes occur in the list. -/
def noDS : List Char → Bool
  | [] => true
  | [_] => true
  | a :: b :: rest => if a = '/' ∧ b = '/' then false else noDS (b :: rest)

/-- The last character of a char list, if any. -/
def lastChar? : List Char → Option Char
  | [] => none
  | [c] => some c
  | _ :: b :: rest => lastChar? (b :: rest)

/-- normalizePath on char lists (fileService.ts lines 9-12):
empty or "/" gives "/", otherwise collapse slash runs, strip one trailing
slash, and fall back to "/" when the result is empty. -/
def normalizeChars (p : List Char) : List Char :=
  if p = [] ∨ p = ['/'] then ['/']
  else
    let r := stripTrailingSlash (collapseSlashes p)
    if r = [] then ['/'] else r

/-- normalizePath (fileService.ts lines 9-12). -/
def normalizePath (p : String) : String := String.mk (normalizeChars p.toList)

/-- A root-anchored virtual path: it starts with a slash. -/
def isAbsolute (s : String) : Bool := s.toList.head? == some '/'

/-- getParentPath (fileService.ts lines 14-19): split on "/", pop the last
segment, join with "/", with "/" as fallback for an empty join. -/
def getParentPath (path : String) : String :=
  if path = "/" then ""
  else
    let parts := (splitChars '/' path.toList).dropLast
    let j := joinSlash parts
    if j = [] then "/" else String.mk j

/-- The non-empty slash-separated segments of a virtual path; used to walk
the on-disk tree rooted at DATA_DIR (path.join plus the per-level stat). -/
def segments (p : String) : List String :=
  ((splitChars '/' p.toList).filter (fun s => !s.isEmpty)).map String.mk

/-- pathModule.basename of path.join(DATA_DIR, np): the last segment of np,
or the base name of the data directory itself (default DATA_DIR /data) when
np is the root. -/
def basenameOf (np : String) : String := ((segments np).getLast?).getD "data"

/-- One IFile record (models/fileModel.ts): the virtual-entry shape shared
by store documents and filesystem-derived listings.  description is the
metadata.description field feeding the store text index. -/
structure VFile where
  name : String
  path : String
  isFolder : Bool
  size : Nat
  mimeType : String
  content : String
  description : String
  parentPath : String
deriving Repr, DecidableEq

/-- The MongoDB mirror: connection state plus persisted file documents.
connected models mongoose.connection.readyState equal to 1; failing models
a driver query that rejects (caught by the service). -/
structure Store where
  connected : Bool
  failing : Bool
  docs : List VFile
deriving Repr

/-- FileModel.find with filter parentPath, in natural (insertion) order. -/
def storeChildren (st : Store) (p : String) : List VFile :=
  st.docs.filter (fun d => d.parentPath == p)

/-- FileModel.findOne with filter path: first document with that path. -/
def Store.findOne (st : Store) (p : String) : Option VFile :=
  st.docs.find? (fun d => d.path == p)

/-- Lexicographic order on char lists by code point, as MongoDB orders
string keys. -/
def strLTb : List Char → List Char → Bool
  | [], [] => false
  | [], _ :: _ => true
  | _ :: _, [] => false
  | a :: as, b :: bs =>
    if a.toNat < b.toNat then true
    else if b.toNat < a.toNat then false
    else strLTb as bs

/-- The sort key of FileModel.find(...).sort with isFolder descending and
name ascending: folders first, then by name. -/
def listingLE (a b : VFile) : Bool :=
  if a.isFolder = b.isFolder then !strLTb b.name.toList a.name.toList
  else a.isFolder

/-- Insert into a sorted list, keeping existing equal keys first. -/
def insertLE (le : α → α → Bool) (a : α) : List α → List α
  | [] => [a]
  | x :: xs => if le x a then x :: insertLE le a xs else a :: x :: xs

/-- Insertion sort by the given Bool order. -/
def sortLE (le : α → α → Bool) : List α → List α
  | [] => []
  | x :: xs => insertLE le x (sortLE le xs)

/-- StoreAdapter listing: FileModel.find with filter parentPath, sorted
folders-first then name ascending (fileService.ts line 168). -/
def Store.list (st : Store) (p : String) : List VFile :=
  sortLE listingLE (storeChildren st p)

/-- Maximal runs of alphanumeric characters. -/
def splitNonWord : List Char → List (List Char)
  | [] => [[]]
  | c :: rest =>
    if c.isAlphanum then
      match splitNonWord rest with
      | [] => [[c]]
      | s :: ss => (c :: s) :: ss
    else [] :: splitNonWord rest

/-- Words of a string, lowercased and split on non-alphanumeric
delimiters, as the MongoDB text tokenizer does. -/
def tokensOf (s : String) : List (List Char) :=
  (splitNonWord (lowerChars s.toList)).filter (fun t => !t.isEmpty)

/-- Modelled from the spec: the MongoDB text relevance score over the text
index on name and metadata.description (spec 4.2: full-text match over
name/description, ranked by relevance score descending).  The store engine
itself is external to src/; the score counts the query words occurring
among the words of name and description. -/
def textScore (q : String) (d : VFile) : Nat :=
  ((tokensOf q).filter
    (fun t => (tokensOf d.name ++ tokensOf d.description).contains t)).length

/-- Descending order by text score. -/
def scoreLE (q : String) (a b : VFile) : Bool :=
  Nat.ble (textScore q b) (textScore q a)

/-- MongoDB cursor limit: a limit of 0 means no limit. -/
def mongoLimit (n : Nat) (l : List α) : List α :=
  if n = 0 then l else l.take n

/-- The store text search of searchFiles (fileService.ts lines 276-279):
text match, sorted by score descending, capped by cursor limit. -/
def storeTextSearch (st : Store) (q : String) (limit : Nat) : List VFile :=
  mongoLimit limit
    (sortLE (scoreLE q) (st.docs.filter (fun d => decide (0 < textScore q d))))

/-- One node of the on-disk tree under DATA_DIR.  fault stands for a
directory entry whose stat or read raises a filesystem error. -/
inductive FSNode where
  | file (content : String)
  | fault
  | dir (children : List (String × FSNode))
deriving Repr

/-- stats.isDirectory. -/
def FSNode.isDir : FSNode → Bool
  | .dir _ => true
  | _ => false

/-- The entry raises on stat. -/
def FSNode.isFault : FSNode → Bool
  | .fault => true
  | _ => false

/-- fs.readFileSync for files; folders carry no content. -/
def FSNode.contentOf : FSNode → String
  | .file c => c
  | _ => ""

/-- stats.size: the byte length of the content for files.  The on-disk
block size of a directory is abstracted as 0. -/
def FSNode.sizeBytes : FSNode → Nat
  | .file c => c.length
  | _ => 0

mutual

/-- Resolve a segment list against the tree: models fs.existsSync plus
fs.statSync of path.join(DATA_DIR, path).  Descending below a non-directory
fails to resolve. -/
def resolve : FSNode → List String → Option FSNode
  | n, [] => some n
  | .dir cs, s :: rest => resolveIn cs s rest
  | _, _ :: _ => none

/-- Scan the children of a directory for the named entry. -/
def resolveIn : List (String × FSNode) → String → List String → Option FSNode
  | [], _, _ => none
  | (n, c) :: cs, s, rest => if n = s then resolve c rest else resolveIn cs s rest

end

/-- The relativePath built during a directory listing (fileService.ts
line 41): "/" child gives "/name", otherwise parent/name. -/
def childPath (p name : String) : String :=
  if p = "/" then "/" ++ name else p ++ "/" ++ name

/-- One listing entry built from a stat (fileService.ts lines 43-59). -/
def fsentry (p name : String) (node : FSNode) : VFile :=
  { name := name
    path := childPath p name
    isFolder := node.isDir
    size := node.sizeBytes
    mimeType := if node.isDir then "directory" else "text/plain"
    content := node.contentOf
    description :=
      "Test " ++ (if node.isDir then "directory" else "file") ++ ": " ++ name
    parentPath := p }

/-- getDirectoryContentsFromFileSystem (fileService.ts lines 21-67): an
absent path, a non-directory path, or any filesystem error during the
per-child stat loop yields the empty listing (the surrounding catch). -/
def getDirectoryContentsFromFileSystem (tree : FSNode) (path : String) :
    List VFile :=
  match resolve tree (segments path) with
  | some (.dir cs) =>
    if cs.any (fun nc => nc.2.isFault) then []
    else cs.map (fun nc => fsentry path nc.1 nc.2)
  | _ => []

/-- The filesystem fallback branch of getFileContent (fileService.ts lines
202-214), with the outer catch already applied: the inner File-not-found
and Cannot-read-content-of-a-directory errors are both rethrown as the one
generic failure (lines 215-218). -/
def fsRead (tree : FSNode) (np : String) : Except String String :=
  match resolve tree (segments np) with
  | some (.file c) => Except.ok c
  | some (.dir _) => Except.error "Failed to get file content"
  | _ => Except.error "Failed to get file content"

/-- The relativePath of the recursive search (fileService.ts line 84):
empty current path gives "/name". -/
def relPath (currentPath name : String) : String :=
  if currentPath = "" then "/" ++ name else currentPath ++ "/" ++ name

/-- The case-insensitive substring match of the search loop
(fileService.ts line 87). -/
def matchesQ (q name : String) : Bool :=
  containsSub (lowerChars q.toList) (lowerChars name.toList)

/-- One search result entry (fileService.ts lines 88-104). -/
def searchEntry (currentPath name : String) (child : FSNode) : VFile :=
  { name := name
    path := relPath currentPath name
    isFolder := child.isDir
    size := child.sizeBytes
    mimeType := if child.isDir then "directory" else "text/plain"
    content := child.contentOf
    description :=
      "Test " ++ (if child.isDir then "directory" else "file") ++ ": " ++ name
    parentPath := if currentPath = "" then "/" else currentPath }

mutual

/-- searchInDirectory (fileService.ts lines 74-112): stop when the
accumulated results reach the limit; readdirSync raises on a non-directory
node (the error aborts the whole walk and is caught by the caller). -/
def searchInDirectory (q : String) (limit : Nat) :
    FSNode → String → List VFile → Except Unit (List VFile)
  | node, currentPath, results =>
    if limit ≤ results.length then Except.ok results
    else
      match node with
      | .dir cs => searchInItems q limit cs currentPath results
      | _ => Except.error ()

/-- The for-loop over readdirSync items: break at the limit, stat each
item (raising on a fault), append the entry on a name match, then recurse
into directories. -/
def searchInItems (q : String) (limit : Nat) :
    List (String × FSNode) → String → List VFile → Except Unit (List VFile)
  | [], _, results => Except.ok results
  | (name, child) :: rest, currentPath, results =>
    if limit ≤ results.length then Except.ok results
    else
      match child with
      | .fault => Except.error ()
      | .file c =>
        let results1 :=
          if matchesQ q name then
            results ++ [searchEntry currentPath name (.file c)]
          else results
        searchInItems q limit rest currentPath results1
      | .dir cs =>
        let results1 :=
          if matchesQ q name then
            results ++ [searchEntry currentPath name (.dir cs)]
          else results
        match searchInDirectory q limit (.dir cs) (relPath currentPath name)
            results1 with
        | Except.error e => Except.error e
        | Except.ok results2 => searchInItems q limit rest currentPath results2

end

/-- searchFilesInFileSystem (fileService.ts lines 69-120): run the walk
from DATA_DIR with empty current path, slice to the limit; any filesystem
error yields the empty result (the surrounding catch). -/
def searchFilesInFileSystem (tree : FSNode) (q : String) (limit : Nat) :
    List VFile :=
  match searchInDirectory q limit tree "" [] with
  | Except.ok results => results.take limit
  | Except.error _ => []

mutual

/-- Every entry of the subtree in depth-first preorder, as the search
walk would visit them with no limit: each child entry, then the subtree of
a directory child, then the following siblings. -/
def preorderDir : FSNode → String → List VFile
  | .dir cs, currentPath => preorderItems cs currentPath
  | _, _ => []

/-- Preorder over a child list. -/
def preorderItems : List (String × FSNode) → String → List VFile
  | [], _ => []
  | (name, child) :: rest, currentPath =>
    searchEntry currentPath name child ::
      (preorderDir child (relPath currentPath name) ++
        preorderItems rest currentPath)

end

mutual

/-- No fault node occurs anywhere in the tree. -/
def FSNode.faultFree : FSNode → Bool
  | .file _ => true
  | .fault => false
  | .dir cs => faultFreeList cs

/-- No fault node occurs in a child list. -/
def faultFreeList : List (String × FSNode) → Bool
  | [] => true
  | (_, c) :: rest => c.faultFree && faultFreeList rest

end

/-- The entries whose name matches the query. -/
def filterMatch (q : String) (l : List VFile) : List VFile :=
  l.filter (fun e => matchesQ q e.name)

/-- The archive entry name (fileService.ts line 151): drop the first
occurrence of the root path from the item path, then drop one character. -/
def entryName (itemPath rootPath : String) : String :=
  String.mk ((replaceFirstL rootPath.toList [] itemPath.toList).drop 1)

/-- addDirectoryToArchive (fileService.ts lines 143-158).  failAt lists
the directory paths whose FileModel.find call rejects during the walk; the
catch at lines 155-157 logs the error and returns, so the failed subtree
contributes nothing and the walk continues.  The fuel bounds the recursion
depth (the JS code would overflow the stack on cyclic parentPath data). -/
def addDirectoryToArchive (st : Store) (failAt : List String) :
    Nat → String → String → List (String × String)
  | 0, _, _ => []
  | fuel+1, dirPath, rootPath =>
    if failAt.contains dirPath then []
    else
      (storeChildren st dirPath).foldr
        (fun item acc =>
          (if item.isFolder then
            addDirectoryToArchive st failAt fuel item.path rootPath
          else [(entryName item.path rootPath, item.content)]) ++ acc)
        []

/-- createZipArchive (fileService.ts lines 122-141): the promise resolves
with the archive stream; listing failures never reach the error channel
because addDirectoryToArchive swallows them.  The store document count
bounds the folder nesting depth of any tree-shaped store. -/
def createZipArchive (st : Store) (failAt : List String) (path : String) :
    Except String (List (String × String)) :=
  Except.ok (addDirectoryToArchive st failAt (st.docs.length + 1) path path)

/-- The store with the documents under the failed parents removed: walking
it with no failures matches walking the original with those failures. -/
def pruneStore (st : Store) (failAt : List String) : Store :=
  { st with docs := st.docs.filter (fun d => !failAt.contains d.parentPath) }

/-- getDirectoryContents (fileService.ts lines 161-183): when connected,
query the store listing and return it when non-empty; a driver error is
caught; every other case falls back to the filesystem listing. -/
def getDirectoryContents (st : Store) (tree : FSNode) (path : String) :
    Except String (List VFile) :=
  let np := normalizePath path
  match
    (if st.connected && !st.failing then
      (let contents := Store.list st np
       if 0 < contents.length then some contents else none)
    else none) with
  | some contents => Except.ok contents
  | none => Except.ok (getDirectoryContentsFromFileSystem tree np)

/-- getFileContent (fileService.ts lines 185-219): when connected and the
store document at the path exists and is not a folder, return its content;
otherwise fall back to the filesystem read. -/
def getFileContent (st : Store) (tree : FSNode) (path : String) :
    Except String String :=
  let np := normalizePath path
  match
    (if st.connected && !st.failing then
      (match Store.findOne st np with
       | some f => if f.isFolder then none else some f.content
       | none => none)
    else none) with
  | some c => Except.ok c
  | none => fsRead tree np

/-- The filesystem-derived info entry (fileService.ts lines 248-264). -/
def infoEntry (np : String) (node : FSNode) : VFile :=
  { name := basenameOf np
    path := np
    isFolder := node.isDir
    size := node.sizeBytes
    mimeType := if node.isDir then "directory" else "text/plain"
    content := node.contentOf
    description :=
      "Test " ++ (if node.isDir then "directory" else "file") ++ ": " ++
        basenameOf np
    parentPath := getParentPath np }

/-- getFileInfo (fileService.ts lines 221-269): store lookup first when
connected (folders included), then the filesystem; an absent path gives
null rather than an error. -/
def getFileInfo (st : Store) (tree : FSNode) (path : String) :
    Except String (Option VFile) :=
  let np := normalizePath path
  match (if st.connected && !st.failing then Store.findOne st np else none) with
  | some f => Except.ok (some f)
  | none =>
    match resolve tree (segments np) with
    | some (.file c) => Except.ok (some (infoEntry np (.file c)))
    | some (.dir cs) => Except.ok (some (infoEntry np (.dir cs)))
    | _ => Except.ok none

/-- searchFiles (fileService.ts lines 271-294): the store text search wins
when connected and non-empty; otherwise the recursive filesystem search. -/
def searchFiles (st : Store) (tree : FSNode) (q : String) (limit : Nat) :
    Except String (List VFile) :=
  match
    (if st.connected && !st.failing then
      (let results := storeTextSearch st q limit
       if 0 < results.length then some results else none)
    else none) with
  | some r => Except.ok r
  | none => Except.ok (searchFilesInFileSystem tree q limit)

/-- A download response body: a single-entry content stream for a file, or
the archive entry list for a folder. -/
inductive DownloadStream where
  | fileStream (content : String)
  | archive (entries : List (String × String))
deriving Repr, DecidableEq

/-- getDownloadStream (fileService.ts lines 354-373): FileModel.findOne
only; the filesystem tree is taken as ambient state but never consulted.
A disconnected or failing store makes findOne reject; an absent document
raises File-not-found; both are rethrown by the catch as the one generic
failure. -/
def getDownloadStream (st : Store) (tree : FSNode) (failAt : List String)
    (path : String) : Except String DownloadStream :=
  let np := normalizePath path
  if st.connected && !st.failing then
    match Store.findOne st np with
    | none => Except.error "Failed to get download stream"
    | some file =>
      if file.isFolder then
        match createZipArchive st failAt np with
        | Except.ok entries => Except.ok (DownloadStream.archive entries)
        | Except.error _ => Except.error "Failed to get download stream"
      else Except.ok (DownloadStream.fileStream file.content)
  else Except.error "Failed to get download stream"

/-- One HTTP reply: status, raw body, and the error field of the JSON
envelope. -/
structure HttpReply where
  status : Nat
  body : Option String
  errMsg : Option String
deriving Repr, DecidableEq

/-- getFileContentHandler (controller, src/unnamed/part_003 lines 477-523):
400 on a non-string path, 404 File not found when getFileInfo is null, 400
Path is not a file on a folder, then the content via getFileContent. -/
def getFileContentHandler (st : Store) (tree : FSNode)
    (qpath : Option String) : HttpReply :=
  match qpath with
  | none => { status := 400, body := none, errMsg := some "Invalid path parameter" }
  | some filePath =>
    match getFileInfo st tree filePath with
    | Except.error _ =>
      { status := 500, body := none, errMsg := some "Failed to read file" }
    | Except.ok none =>
      { status := 404, body := none, errMsg := some "File not found" }
    | Except.ok (some f) =>
      if f.isFolder then
        { status := 400, body := none, errMsg := some "Path is not a file" }
      else
        match getFileContent st tree filePath with
        | Except.error _ =>
          { status := 500, body := none, errMsg := some "Failed to read file" }
        | Except.ok content =>
          { status := 200, body := some content, errMsg := none }

/-- The ambient state read by the health route: process uptime, the
fs.existsSync check of DATA_DIR (error channel for an unexpected throw),
and the actual store connection state. -/
structure HealthInput where
  uptime : Nat
  dataDirCheck : Except Unit Bool
  storeConnected : Bool
deriving Repr

/-- The health response body fields the claims mention. -/
structure HealthBody where
  status : String
  uptime : Nat
  dataDirExists : Bool
  mongoConnected : Bool
deriving Repr, DecidableEq

/-- The health route (src/unnamed/part_001 lines 7-40): 200 with the body
unless the handler throws, then 503.  The mongodb.connected field is the
literal true from line 28, not the live connection state. -/
def healthHandler (h : HealthInput) : Nat × Option HealthBody :=
  match h.dataDirCheck with
  | Except.error _ => (503, none)
  | Except.ok dirExists =>
    (200, some { status := "healthy", uptime := h.uptime,
                 dataDirExists := dirExists, mongoConnected := true })

/- ### Concrete fixtures for witnesses and counterexamples -/

/-- A store document: a plain file at /report.log. -/
def docReport : VFile :=
  { name := "report.log", path := "/report.log", isFolder := false
    size := 2, mimeType := "text/plain", content := "ok"
    description := "Test file: report.log", parentPath := "/" }

/-- A reachable store holding docReport. -/
def stWithDoc : Store := { connected := true, failing := false, docs := [docReport] }

/-- A reachable store with no documents. -/
def stNoDocs : Store := { connected := true, failing := false, docs := [] }

/-- A disconnected store. -/
def stDown : Store := { connected := false, failing := false, docs := [docReport] }

/-- A reachable store whose queries reject. -/
def stFailing : Store := { connected := true, failing := true, docs := [docReport] }

/-- A small on-disk tree: a file and a directory with one file. -/
def treeSmall : FSNode :=
  .dir [("report.log", .file "ok"), ("jobs", .dir [("a.txt", .file "aa")])]

/-- An on-disk tree whose single child raises on stat. -/
def treeFaultChild : FSNode := .dir [("broken", .fault)]

/-- Store documents for the archive fixtures: a folder /r/sub with one
file, and a file /r/b.txt, both under /r. -/
def docSub : VFile :=
  { name := "sub", path := "/r/sub", isFolder := true, size := 0
    mimeType := "directory", content := "", description := "", parentPath := "/r" }

/-- The file under /r. -/
def docB : VFile :=
  { name := "b.txt", path := "/r/b.txt", isFolder := false, size := 5
    mimeType := "text/plain", content := "hello", description := "", parentPath := "/r" }

/-- The file under the nested folder /r/sub. -/
def docC : VFile :=
  { name := "c.txt", path := "/r/sub/c.txt", isFolder := false, size := 3
    mimeType := "text/plain", content := "zzz", description := "", parentPath := "/r/sub" }

/-- The archive fixture store. -/
def stArch : Store := { connected := true, failing := false, docs := [docSub, docB, docC] }

/-- Health fixture: the store is actually disconnected. -/
def healthDisconnected : HealthInput :=
  { uptime := 42, dataDirCheck := Except.ok true, storeConnected := false }

/-- Health fixture: the existence check itself throws. -/
def healthThrowing : HealthInput :=
  { uptime := 7, dataDirCheck := Except.error (), storeConnected := true }

/- ### Lemmas: the path normalizer -/

theorem collapse_cons (b : Char) (rest : List Char) :
    ∃ t, collapseSlashes (b :: rest) = b :: t := by
  induction rest generalizing b with
  | nil => exact ⟨[], rfl⟩
  | cons c rest2 ih =>
    by_cases h : b = '/' ∧ c = '/'
    · obtain ⟨hb, hc⟩ := h
      subst hb
      subst hc
      obtain ⟨t, ht⟩ := ih '/'
      refine ⟨t, ?_⟩
      rw [show collapseSlashes ('/' :: '/' :: rest2) =
            collapseSlashes ('/' :: rest2) from by simp [collapseSlashes], ht]
    · refine ⟨collapseSlashes (c :: rest2), ?_⟩
      simp only [collapseSlashes]
      rw [if_neg h]

theorem noDS_cons_cons {a b : Char} {rest : List Char} :
    noDS (a :: b :: rest) = true ↔
      (¬(a = '/' ∧ b = '/') ∧ noDS (b :: rest) = true) := by
  by_cases h : a = '/' ∧ b = '/'
  · simp [noDS, h]
  · simp [noDS, h]

theorem noDS_collapse (l : List Char) : noDS (collapseSlashes l) = true := by
  induction l with
  | nil => rfl
  | cons a rest ih =>
    cases rest with
    | nil => rfl
    | cons b rest2 =>
      by_cases h : a = '/' ∧ b = '/'
      · simpa [collapseSlashes, h] using ih
      · obtain ⟨t, ht⟩ := collapse_cons b rest2
        have step : collapseSlashes (a :: b :: rest2) =
            a :: collapseSlashes (b :: rest2) := by
          simp only [collapseSlashes]
          rw [if_neg h]
        rw [step, ht]
        rw [ht] at ih
        exact noDS_cons_cons.mpr ⟨h, ih⟩

theorem collapse_of_noDS (l : List Char) (h : noDS l = true) :
    collapseSlashes l = l := by
  induction l with
  | nil => rfl
  | cons a rest ih =>
    cases rest with
    | nil => rfl
    | cons b rest2 =>
      obtain ⟨hab, htail⟩ := noDS_cons_cons.mp h
      have step : collapseSlashes (a :: b :: rest2) =
          a :: collapseSlashes (b :: rest2) := by
        simp only [collapseSlashes]
        rw [if_neg hab]
      rw [step, ih htail]

theorem strip_eq_nil {b : Char} {rest : List Char}
    (h : stripTrailingSlash (b :: rest) = []) : b = '/' ∧ rest = [] := by
  cases rest with
  | nil =>
    by_cases hb : b = '/'
    · exact ⟨hb, rfl⟩
    · simp [stripTrailingSlash, hb] at h
  | cons c rest2 => simp [stripTrailingSlash] at h

theorem strip_shape (b : Char) (rest : List Char) :
    stripTrailingSlash (b :: rest) = [] ∨
      ∃ t, stripTrailingSlash (b :: rest) = b :: t := by
  cases rest with
  | nil =>
    by_cases hb : b = '/'
    · left
      simp [stripTrailingSlash, hb]
    · right
      exact ⟨[], by simp [stripTrailingSlash, hb]⟩
  | cons c rest2 => exact Or.inr ⟨stripTrailingSlash (c :: rest2), rfl⟩

theorem noDS_strip (l : List Char) (h : noDS l = true) :
    noDS (stripTrailingSlash l) = true := by
  induction l with
  | nil => rfl
  | cons a rest ih =>
    cases rest with
    | nil =>
      by_cases ha : a = '/'
      · simp [stripTrailingSlash, ha, noDS]
      · simp [stripTrailingSlash, ha, noDS]
    | cons b rest2 =>
      obtain ⟨hab, htail⟩ := noDS_cons_cons.mp h
      have step : stripTrailingSlash (a :: b :: rest2) =
          a :: stripTrailingSlash (b :: rest2) := rfl
      rw [step]
      rcases strip_shape b rest2 with hnil | ⟨t, ht⟩
      · rw [hnil]
        rfl
      · rw [ht]
        exact noDS_cons_cons.mpr ⟨hab, ht ▸ ih htail⟩

theorem strip_lastChar (l : List Char) (h : noDS l = true) :
    lastChar? (stripTrailingSlash l) ≠ some '/' := by
  induction l with
  | nil => simp [stripTrailingSlash, lastChar?]
  | cons a rest ih =>
    cases rest with
    | nil =>
      by_cases ha : a = '/'
      · simp [stripTrailingSlash, ha, lastChar?]
      · simp only [stripTrailingSlash]
        rw [if_neg ha]
        simpa [lastChar?] using ha
    | cons b rest2 =>
      obtain ⟨hab, htail⟩ := noDS_cons_cons.mp h
      have step : stripTrailingSlash (a :: b :: rest2) =
          a :: stripTrailingSlash (b :: rest2) := rfl
      rw [step]
      rcases strip_shape b rest2 with hnil | ⟨t, ht⟩
      · rw [hnil]
        obtain ⟨hb, hrest⟩ := strip_eq_nil hnil
        have ha : a ≠ '/' := fun haa => hab ⟨haa, hb⟩
        simpa [lastChar?] using ha
      · rw [ht]
        have step2 : lastChar? (a :: b :: t) = lastChar? (b :: t) := rfl
        rw [step2, ← ht]
        exact ih htail

theorem strip_id (l : List Char) (h : lastChar? l ≠ some '/') :
    stripTrailingSlash l = l := by
  induction l with
  | nil => rfl
  | cons a rest ih =>
    cases rest with
    | nil =>
      have ha : a ≠ '/' := by simpa [lastChar?] using h
      simp [stripTrailingSlash, ha]
    | cons b rest2 =>
      have h2 : lastChar? (b :: rest2) ≠ some '/' := by
        simpa [lastChar?] using h
      have step : stripTrailingSlash (a :: b :: rest2) =
          a :: stripTrailingSlash (b :: rest2) := rfl
      rw [step, ih h2]

theorem normalizeChars_root : normalizeChars ['/'] = ['/'] := by
  simp [normalizeChars]

theorem normalizeChars_of_ne (p : List Char) (h0 : ¬(p = [] ∨ p = ['/'])) :
    normalizeChars p =
      if stripTrailingSlash (collapseSlashes p) = [] then ['/']
      else stripTrailingSlash (collapseSlashes p) := by
  simp only [normalizeChars]
  rw [if_neg h0]

theorem normalizeChars_idem (p : List Char) :
    normalizeChars (normalizeChars p) = normalizeChars p := by
  by_cases h0 : p = [] ∨ p = ['/']
  · rw [show normalizeChars p = ['/'] from by simp [normalizeChars, h0]]
    exact normalizeChars_root
  · have hnn := noDS_collapse p
    have hrd : noDS (stripTrailingSlash (collapseSlashes p)) = true :=
      noDS_strip _ hnn
    have hrl : lastChar? (stripTrailingSlash (collapseSlashes p)) ≠ some '/' :=
      strip_lastChar _ hnn
    rw [normalizeChars_of_ne p h0]
    by_cases hre : stripTrailingSlash (collapseSlashes p) = []
    · rw [if_pos hre]
      exact normalizeChars_root
    · rw [if_neg hre]
      by_cases hslash : stripTrailingSlash (collapseSlashes p) = ['/']
      · rw [hslash]
        exact normalizeChars_root
      · rw [normalizeChars_of_ne _ (by tauto)]
        rw [collapse_of_noDS _ hrd, strip_id _ hrl, if_neg hre]

theorem normalizeChars_noDS (p : List Char) :
    noDS (normalizeChars p) = true := by
  by_cases h0 : p = [] ∨ p = ['/']
  · simp [normalizeChars, h0, noDS]
  · rw [normalizeChars_of_ne p h0]
    by_cases hre : stripTrailingSlash (collapseSlashes p) = []
    · rw [if_pos hre]
      rfl
    · rw [if_neg hre]
      exact noDS_strip _ (noDS_collapse p)

theorem normalizeChars_lastChar (p : List Char)
    (h : normalizeChars p ≠ ['/']) :
    lastChar? (normalizeChars p) ≠ some '/' := by
  by_cases h0 : p = [] ∨ p = ['/']
  · exact absurd (by simp [normalizeChars, h0]) h
  · rw [normalizeChars_of_ne p h0] at h ⊢
    by_cases hre : stripTrailingSlash (collapseSlashes p) = []
    · rw [if_pos hre] at h
      exact absurd rfl h
    · rw [if_neg hre]
      exact strip_lastChar _ (noDS_collapse p)

theorem normalizeChars_head (p : List Char) :
    (normalizeChars p).head? = some '/' ↔ (p.head? = some '/' ∨ p = []) := by
  by_cases h0 : p = [] ∨ p = ['/']
  · rcases h0 with h | h <;> subst h <;> simp [normalizeChars]
  · push_neg at h0
    obtain ⟨hne, hns⟩ := h0
    obtain ⟨a, l, rfl⟩ : ∃ a l, p = a :: l := by
      cases p with
      | nil => exact absurd rfl hne
      | cons a l => exact ⟨a, l, rfl⟩
    obtain ⟨t, hct⟩ := collapse_cons a l
    rw [normalizeChars_of_ne _ (by tauto), hct]
    rcases strip_shape a t with hnil | ⟨t2, ht2⟩
    · rw [hnil, if_pos rfl]
      obtain ⟨ha, _⟩ := strip_eq_nil hnil
      simp [ha]
    · rw [ht2, if_neg (by simp)]
      simp

/- ### C7 and C8: path normalization -/

/-- C7 counterexample: the input abc (no leading separator) is returned
unchanged, so the returned path is not root-anchored; the claim that every
input yields an absolute path is false on the code. -/
theorem normalizePath_not_always_absolute :
    normalizePath "abc" = "abc" ∧ isAbsolute (normalizePath "abc") = false := by
  constructor
  · rfl
  · decide

/-- C7 (amended): the empty string and the single separator normalize to
the root; the output never contains a run of consecutive separators; a
trailing separator survives only on the root itself; and the output is
root-anchored exactly when the input is empty or already starts with the
separator (inputs without a leading separator stay relative). -/
theorem normalizePath_canonical (p : String) :
    ((p = "" ∨ p = "/") → normalizePath p = "/") ∧
    noDS (normalizePath p).toList = true ∧
    (normalizePath p ≠ "/" → lastChar? (normalizePath p).toList ≠ some '/') ∧
    (isAbsolute (normalizePath p) = true ↔
      (isAbsolute p = true ∨ p = "")) := by
  refine ⟨?_, ?_, ?_, ?_⟩
  · rintro (h | h) <;> subst h <;> rfl
  · exact normalizeChars_noDS p.toList
  · intro h
    have hlist : normalizeChars p.toList ≠ ['/'] := by
      intro hc
      exact h (show normalizePath p = "/" from congrArg String.mk hc)
    exact normalizeChars_lastChar p.toList hlist
  · have hhead := normalizeChars_head p.toList
    have h1 : isAbsolute (normalizePath p) = true ↔
        (normalizeChars p.toList).head? = some '/' := by
      simp [isAbsolute, normalizePath]
    have h2 : isAbsolute p = true ↔ p.toList.head? = some '/' := by
      simp [isAbsolute]
    have h3 : p = "" ↔ p.toList = [] := by
      constructor
      · intro h
        subst h
        rfl
      · intro h
        cases p with
        | mk data => simpa using congrArg String.mk h
    rw [h1, h2, h3, hhead]

/-- C7 witness: the amended normalization contract applied at concrete
inputs for each hypothesis. -/
theorem normalizePath_canonical_witness :
    normalizePath "/" = "/" ∧
    noDS (normalizePath "//x//y/").toList = true ∧
    lastChar? (normalizePath "/x/").toList ≠ some '/' ∧
    (isAbsolute (normalizePath "/x") = true ↔
      (isAbsolute "/x" = true ∨ "/x" = "")) :=
  ⟨(normalizePath_canonical "/").1 (Or.inr rfl),
   (normalizePath_canonical "//x//y/").2.1,
   (normalizePath_canonical "/x/").2.2.1 (by decide),
   (normalizePath_canonical "/x").2.2.2⟩

/-- C8: normalizePath is idempotent on every path string. -/
theorem normalizePath_idempotent (p : String) :
    normalizePath (normalizePath p) = normalizePath p := by
  show String.mk (normalizeChars (String.mk (normalizeChars p.toList)).toList) =
    String.mk (normalizeChars p.toList)
  rw [show (String.mk (normalizeChars p.toList)).toList =
        normalizeChars p.toList from rfl]
  rw [normalizeChars_idem]

/- ### Lemmas: directory listing fallback -/

theorem fsListing_empty (tree : FSNode) (np : String)
    (h : resolve tree (segments np) = none ∨
      (∃ c, resolve tree (segments np) = some (FSNode.file c)) ∨
      resolve tree (segments np) = some FSNode.fault ∨
      (∃ cs, resolve tree (segments np) = some (FSNode.dir cs) ∧
        cs.any (fun nc => nc.2.isFault) = true)) :
    getDirectoryContentsFromFileSystem tree np = [] := by
  rcases h with h | ⟨c, h⟩ | h | ⟨cs, h, hf⟩
  · simp [getDirectoryContentsFromFileSystem, h]
  · simp [getDirectoryContentsFromFileSystem, h]
  · simp [getDirectoryContentsFromFileSystem, h]
  · simp [getDirectoryContentsFromFileSystem, h, hf]

theorem getDirectoryContents_storeBranch (st : Store) (tree : FSNode)
    (path : String) (hc : st.connected = true) (hf : st.failing = false)
    (hne : Store.list st (normalizePath path) ≠ []) :
    getDirectoryContents st tree path =
      Except.ok (Store.list st (normalizePath path)) := by
  have hb : (st.connected && !st.failing) = true := by rw [hc, hf]; rfl
  have hlen : 0 < (Store.list st (normalizePath path)).length :=
    List.length_pos.mpr hne
  simp [getDirectoryContents, hb, hlen]

theorem getDirectoryContents_fsBranch (st : Store) (tree : FSNode)
    (path : String)
    (h : st.connected = false ∨ st.failing = true ∨
      Store.list st (normalizePath path) = []) :
    getDirectoryContents st tree path =
      Except.ok (getDirectoryContentsFromFileSystem tree (normalizePath path)) := by
  rcases h with h | h | h <;> simp [getDirectoryContents, h]

/- ### C1: getDirectoryContents fallback protocol -/

/-- C1: the store listing is returned only when the store is reachable and
the listing is non-empty; a failing store query or an empty store listing
falls back to the filesystem listing of the same normalized path, even when
that fallback is itself empty. -/
theorem getDirectoryContents_fallback_protocol (st : Store) (tree : FSNode)
    (path : String) :
    (st.connected = true → st.failing = false →
      Store.list st (normalizePath path) ≠ [] →
      getDirectoryContents st tree path =
        Except.ok (Store.list st (normalizePath path))) ∧
    ((st.connected = false ∨ st.failing = true ∨
        Store.list st (normalizePath path) = []) →
      getDirectoryContents st tree path =
        Except.ok (getDirectoryContentsFromFileSystem tree (normalizePath path))) :=
  ⟨getDirectoryContents_storeBranch st tree path,
   getDirectoryContents_fsBranch st tree path⟩

/-- C1 witness: a populated reachable store returns its listing; a
disconnected store returns the filesystem listing. -/
theorem getDirectoryContents_fallback_protocol_witness :
    getDirectoryContents stWithDoc treeSmall "/" =
      Except.ok (Store.list stWithDoc (normalizePath "/")) ∧
    getDirectoryContents stDown treeSmall "/" =
      Except.ok (getDirectoryContentsFromFileSystem treeSmall (normalizePath "/")) :=
  ⟨(getDirectoryContents_fallback_protocol stWithDoc treeSmall "/").1 rfl rfl
      (by decide),
   (getDirectoryContents_fallback_protocol stDown treeSmall "/").2 (Or.inl rfl)⟩

/- ### C10: getDirectoryContents never raises NotFound -/

/-- C10: getDirectoryContents always resolves (no NotFound, no propagated
filesystem error); and whenever the store yields nothing, a non-existent
path, a regular-file path, or a listing hitting a filesystem fault returns
the empty sequence rather than an error. -/
theorem getDirectoryContents_total_empty (st : Store) (tree : FSNode)
    (path : String) :
    (∃ l, getDirectoryContents st tree path = Except.ok l) ∧
    ((st.connected = false ∨ st.failing = true ∨
        Store.list st (normalizePath path) = []) →
      (resolve tree (segments (normalizePath path)) = none ∨
        (∃ c, resolve tree (segments (normalizePath path)) =
          some (FSNode.file c)) ∨
        resolve tree (segments (normalizePath path)) = some FSNode.fault ∨
        (∃ cs, resolve tree (segments (normalizePath path)) =
            some (FSNode.dir cs) ∧
          cs.any (fun nc => nc.2.isFault) = true)) →
      getDirectoryContents st tree path = Except.ok []) := by
  constructor
  · by_cases hc : st.connected = true
    · by_cases hf : st.failing = true
      · exact ⟨_, getDirectoryContents_fsBranch st tree path (Or.inr (Or.inl hf))⟩
      · by_cases hne : Store.list st (normalizePath path) = []
        · exact ⟨_, getDirectoryContents_fsBranch st tree path
            (Or.inr (Or.inr hne))⟩
        · exact ⟨_, getDirectoryContents_storeBranch st tree path hc
            (Bool.not_eq_true _ ▸ hf) hne⟩
    · exact ⟨_, getDirectoryContents_fsBranch st tree path
        (Or.inl (Bool.not_eq_true _ ▸ hc))⟩
  · intro hstore hres
    rw [getDirectoryContents_fsBranch st tree path hstore,
      fsListing_empty tree (normalizePath path) hres]

/-- C10 witness: with a disconnected store, a path missing on disk, a
regular-file path, and a faulting listing all return the empty sequence. -/
theorem getDirectoryContents_total_empty_witness :
    (∃ l, getDirectoryContents stDown treeSmall "/nope" = Except.ok l) ∧
    getDirectoryContents stDown treeSmall "/nope" = Except.ok [] ∧
    getDirectoryContents stDown treeSmall "/report.log" = Except.ok [] ∧
    getDirectoryContents stDown treeFaultChild "/" = Except.ok [] :=
  ⟨(getDirectoryContents_total_empty stDown treeSmall "/nope").1,
   (getDirectoryContents_total_empty stDown treeSmall "/nope").2
     (Or.inl rfl) (Or.inl rfl),
   (getDirectoryContents_total_empty stDown treeSmall "/report.log").2
     (Or.inl rfl) (Or.inr (Or.inl ⟨"ok", rfl⟩)),
   (getDirectoryContents_total_empty stDown treeFaultChild "/").2
     (Or.inl rfl) (Or.inr (Or.inr (Or.inr ⟨[("broken", FSNode.fault)], rfl, rfl⟩)))⟩

/- ### C2: getFileContent resolution and HTTP surfacing -/

/-- C2: the store read is used exactly when the store document exists and
is not a folder; every other store outcome falls back to the filesystem
read; over HTTP a path absent from both sources yields 404 File not found,
and a path resolving to a folder yields 400 Path is not a file. -/
theorem getFileContent_resolution :
    (∀ (st : Store) (tree : FSNode) (path : String) (f : VFile),
      st.connected = true → st.failing = false →
      Store.findOne st (normalizePath path) = some f → f.isFolder = false →
      getFileContent st tree path = Except.ok f.content) ∧
    (∀ (st : Store) (tree : FSNode) (path : String),
      (st.connected = false ∨ st.failing = true ∨
        Store.findOne st (normalizePath path) = none ∨
        (∃ f, Store.findOne st (normalizePath path) = some f ∧
          f.isFolder = true)) →
      getFileContent st tree path = fsRead tree (normalizePath path)) ∧
    (∀ (st : Store) (tree : FSNode) (p : String),
      Store.findOne st (normalizePath p) = none →
      (resolve tree (segments (normalizePath p)) = none ∨
        resolve tree (segments (normalizePath p)) = some FSNode.fault) →
      getFileContentHandler st tree (some p) =
        { status := 404, body := none, errMsg := some "File not found" }) ∧
    (∀ (st : Store) (tree : FSNode) (p : String) (f : VFile),
      getFileInfo st tree p = Except.ok (some f) → f.isFolder = true →
      getFileContentHandler st tree (some p) =
        { status := 400, body := none, errMsg := some "Path is not a file" }) := by
  refine ⟨?_, ?_, ?_, ?_⟩
  · intro st tree path f hc hf hfind hfold
    have hb : (st.connected && !st.failing) = true := by rw [hc, hf]; rfl
    simp [getFileContent, hb, hfind, hfold]
  · intro st tree path h
    rcases h with h | h | h | ⟨f, hfind, hfold⟩
    · simp [getFileContent, h]
    · simp [getFileContent, h]
    · simp [getFileContent, h]
    · simp [getFileContent, hfind, hfold]
  · intro st tree p hfind hres
    have hinfo : getFileInfo st tree p = Except.ok none := by
      cases hb : st.connected && !st.failing <;>
        rcases hres with h | h <;> simp [getFileInfo, hb, hfind, h]
    simp [getFileContentHandler, hinfo]
  · intro st tree p f hinfo hfold
    simp [getFileContentHandler, hinfo, hfold]

/-- C2 witness: the four resolution branches at concrete inputs. -/
theorem getFileContent_resolution_witness :
    getFileContent stWithDoc treeSmall "/report.log" =
      Except.ok docReport.content ∧
    getFileContent stDown treeSmall "/jobs/a.txt" =
      fsRead treeSmall (normalizePath "/jobs/a.txt") ∧
    getFileContentHandler stNoDocs treeSmall (some "/nope") =
      { status := 404, body := none, errMsg := some "File not found" } ∧
    getFileContentHandler stDown treeSmall (some "/jobs") =
      { status := 400, body := none, errMsg := some "Path is not a file" } :=
  ⟨getFileContent_resolution.1 stWithDoc treeSmall "/report.log" docReport
      rfl rfl rfl rfl,
   getFileContent_resolution.2.1 stDown treeSmall "/jobs/a.txt" (Or.inl rfl),
   getFileContent_resolution.2.2.1 stNoDocs treeSmall "/nope" rfl (Or.inl rfl),
   getFileContent_resolution.2.2.2 stDown treeSmall "/jobs"
     (infoEntry "/jobs" (FSNode.dir [("a.txt", FSNode.file "aa")])) rfl rfl⟩

/- ### C3: getDownloadStream has no filesystem fallback -/

/-- C3 counterexample: the store is reachable but lacks /report.log while
the on-disk tree has it as a file; the claim says the download still
succeeds from disk, but the operation fails. -/
theorem getDownloadStream_no_fs_fallback :
    getDownloadStream stNoDocs treeSmall [] "/report.log" =
      Except.error "Failed to get download stream" ∧
    resolve treeSmall (segments (normalizePath "/report.log")) =
      some (FSNode.file "ok") ∧
    Store.findOne stNoDocs (normalizePath "/report.log") = none :=
  ⟨rfl, rfl, rfl⟩

/-- C3 (amended): getDownloadStream resolves the entry from the store
only — the result never depends on the on-disk tree; it fails whenever the
store is unreachable or lacks the path, even for paths present on disk;
when the store has the entry it streams the file content for a file and
delegates to the archive builder for a folder. -/
theorem getDownloadStream_store_only (st : Store) (tree tree2 : FSNode)
    (failAt : List String) (path : String) :
    (getDownloadStream st tree failAt path =
      getDownloadStream st tree2 failAt path) ∧
    ((st.connected = false ∨ st.failing = true ∨
        Store.findOne st (normalizePath path) = none) →
      getDownloadStream st tree failAt path =
        Except.error "Failed to get download stream") ∧
    (∀ f, st.connected = true → st.failing = false →
      Store.findOne st (normalizePath path) = some f →
      getDownloadStream st tree failAt path =
        (if f.isFolder then
          Except.ok (DownloadStream.archive
            (addDirectoryToArchive st failAt (st.docs.length + 1)
              (normalizePath path) (normalizePath path)))
        else Except.ok (DownloadStream.fileStream f.content))) := by
  refine ⟨rfl, ?_, ?_⟩
  · intro h
    rcases h with h | h | h <;>
      simp [getDownloadStream, h, createZipArchive]
  · intro f hc hf hfind
    have hb : (st.connected && !st.failing) = true := by rw [hc, hf]; rfl
    by_cases hfold : f.isFolder = true <;>
      simp [getDownloadStream, hb, hfind, hfold, createZipArchive]

/-- C3 witness: tree independence, failure on a store miss, and the file
stream on a store hit, at concrete inputs. -/
theorem getDownloadStream_store_only_witness :
    (getDownloadStream stWithDoc treeSmall [] "/report.log" =
      getDownloadStream stWithDoc treeFaultChild [] "/report.log") ∧
    getDownloadStream stDown treeSmall [] "/report.log" =
      Except.error "Failed to get download stream" ∧
    getDownloadStream stWithDoc treeSmall [] "/report.log" =
      Except.ok (DownloadStream.fileStream docReport.content) :=
  ⟨(getDownloadStream_store_only stWithDoc treeSmall treeFaultChild []
      "/report.log").1,
   (getDownloadStream_store_only stDown treeSmall treeSmall []
      "/report.log").2.1 (Or.inl rfl),
   (getDownloadStream_store_only stWithDoc treeSmall treeSmall []
      "/report.log").2.2 docReport rfl rfl rfl⟩

/- ### C5: search results never exceed the limit -/

theorem mongoLimit_length_le {α : Type} (n : Nat) (hn : 0 < n)
    (l : List α) : (mongoLimit n l).length ≤ n := by
  have hne : n ≠ 0 := Nat.pos_iff_ne_zero.mp hn
  simp [mongoLimit, hne]

theorem searchFilesInFileSystem_length_le (tree : FSNode) (q : String)
    (limit : Nat) : (searchFilesInFileSystem tree q limit).length ≤ limit := by
  unfold searchFilesInFileSystem
  cases searchInDirectory q limit tree "" [] with
  | error e => simp
  | ok results => simp

/-- C5: for every query and every positive limit, searchFiles resolves
with a sequence of length at most the limit, whether served by the store
text search or by the filesystem fallback. -/
theorem searchFiles_limit_bound (st : Store) (tree : FSNode) (q : String)
    (limit : Nat) (hl : 0 < limit) :
    ∃ l, searchFiles st tree q limit = Except.ok l ∧ l.length ≤ limit := by
  by_cases hb : (st.connected && !st.failing) = true
  · by_cases hlen : 0 < (storeTextSearch st q limit).length
    · refine ⟨storeTextSearch st q limit, ?_, ?_⟩
      · simp [searchFiles, hb, hlen]
      · exact mongoLimit_length_le limit hl _
    · refine ⟨searchFilesInFileSystem tree q limit, ?_,
        searchFilesInFileSystem_length_le tree q limit⟩
      simp [searchFiles, hb, hlen]
  · refine ⟨searchFilesInFileSystem tree q limit, ?_,
      searchFilesInFileSystem_length_le tree q limit⟩
    simp [searchFiles, hb]

/-- C5 witness: the bound applied to a concrete store and tree. -/
theorem searchFiles_limit_bound_witness :
    ∃ l, searchFiles stDown treeSmall "a" 50 = Except.ok l ∧ l.length ≤ 50 :=
  searchFiles_limit_bound stDown treeSmall "a" 50 (by decide)

/- ### C9: the health endpoint -/

/-- C9 counterexample: with the store actually disconnected the health
body still reports the connected flag as true; the flag does not reflect
the live connection state. -/
theorem healthHandler_flag_not_live :
    healthDisconnected.storeConnected = false ∧
    healthHandler healthDisconnected =
      (200, some { status := "healthy", uptime := 42, dataDirExists := true,
                   mongoConnected := true }) :=
  ⟨rfl, rfl⟩

/-- C9 (amended): the health endpoint responds 200 with the process
uptime, the data-directory existence flag, and a store-connected field
hardcoded to true regardless of the actual connection state; an unexpected
error in the handler yields 503. -/
theorem healthHandler_contract (h : HealthInput) :
    (∀ b, h.dataDirCheck = Except.ok b →
      healthHandler h =
        (200, some { status := "healthy", uptime := h.uptime,
                     dataDirExists := b, mongoConnected := true })) ∧
    (∀ e, h.dataDirCheck = Except.error e →
      healthHandler h = (503, none)) := by
  constructor
  · intro b hb
    simp [healthHandler, hb]
  · intro e he
    simp [healthHandler, he]

/-- C9 witness: the contract at a healthy input and at a throwing input. -/
theorem healthHandler_contract_witness :
    healthHandler healthDisconnected =
      (200, some { status := "healthy", uptime := 42, dataDirExists := true,
                   mongoConnected := true }) ∧
    healthHandler healthThrowing = (503, none) :=
  ⟨(healthHandler_contract healthDisconnected).1 true rfl,
   (healthHandler_contract healthThrowing).2 () rfl⟩

/- ### Lemmas: the archive walk under listing failures -/

theorem storeChildren_prune_failed (st : Store) (failAt : List String)
    (dirPath : String) (h : dirPath ∈ failAt) :
    storeChildren (pruneStore st failAt) dirPath = [] := by
  apply List.filter_eq_nil_iff.mpr
  intro d hd hdp
  obtain ⟨_, hp1⟩ := List.mem_filter.mp hd
  have hpp : d.parentPath = dirPath := by simpa using hdp
  rw [hpp] at hp1
  simp [h] at hp1

theorem storeChildren_prune_ok (st : Store) (failAt : List String)
    (dirPath : String) (h : dirPath ∉ failAt) :
    storeChildren (pruneStore st failAt) dirPath = storeChildren st dirPath := by
  show (st.docs.filter _).filter _ = st.docs.filter _
  rw [List.filter_filter]
  apply List.filter_congr
  intro d _
  by_cases hdp : d.parentPath = dirPath
  · simp [hdp, h]
  · simp [hdp]

theorem archiveWalk_prune (st : Store) (failAt : List String) :
    ∀ (fuel : Nat) (dirPath rootPath : String),
      addDirectoryToArchive st failAt fuel dirPath rootPath =
        addDirectoryToArchive (pruneStore st failAt) [] fuel dirPath rootPath := by
  intro fuel
  induction fuel with
  | zero =>
    intro dirPath rootPath
    rfl
  | succ n ih =>
    intro dirPath rootPath
    by_cases hin : dirPath ∈ failAt
    · simp [addDirectoryToArchive, hin,
        storeChildren_prune_failed st failAt dirPath hin]
    · have hch := storeChildren_prune_ok st failAt dirPath hin
      simp only [addDirectoryToArchive, hch]
      rw [if_neg (by simpa using hin), if_neg (by simp)]
      have hfold : ∀ l : List VFile,
          l.foldr (fun item acc =>
            (if item.isFolder then
              addDirectoryToArchive st failAt n item.path rootPath
            else [(entryName item.path rootPath, item.content)]) ++ acc) [] =
          l.foldr (fun item acc =>
            (if item.isFolder then
              addDirectoryToArchive (pruneStore st failAt) [] n item.path rootPath
            else [(entryName item.path rootPath, item.content)]) ++ acc) [] := by
        intro l
        induction l with
        | nil => rfl
        | cons x xs ihx =>
          simp only [List.foldr_cons, ihx]
          by_cases hxf : x.isFolder = true
          · simp [hxf, ih]
          · simp [hxf]
      exact hfold _

/- ### C4: archive construction is fail-open, not fail-closed -/

/-- C4 counterexample: with the listing of the folder /r/sub failing, the
archive still completes successfully, emitting a partial-but-valid archive
that silently omits the failed subtree (and the full archive when nothing
fails), rather than aborting the stream with an error. -/
theorem createZipArchive_completes_on_failure :
    createZipArchive stArch ["/r/sub"] "/r" =
      Except.ok [("b.txt", "hello")] ∧
    createZipArchive stArch [] "/r" =
      Except.ok [("sub/c.txt", "zzz"), ("b.txt", "hello")] :=
  ⟨rfl, rfl⟩

/-- C4 (amended): an error during a folder-listing retrieval is caught and
logged inside the walk; the walk continues and produces exactly the
archive of the store with the failed listings emptied out, and archive
construction always resolves successfully (fail-open semantics). -/
theorem addDirectoryToArchive_fail_open :
    (∀ (st : Store) (failAt : List String) (fuel : Nat)
        (dirPath rootPath : String),
      addDirectoryToArchive st failAt fuel dirPath rootPath =
        addDirectoryToArchive (pruneStore st failAt) [] fuel dirPath rootPath) ∧
    (∀ (st : Store) (failAt : List String) (path : String),
      ∃ es, createZipArchive st failAt path = Except.ok es) :=
  ⟨fun st failAt => archiveWalk_prune st failAt,
   fun st failAt path =>
     ⟨addDirectoryToArchive st failAt (st.docs.length + 1) path path, rfl⟩⟩

/- ### Lemmas: the recursive filesystem search -/

theorem searchInItems_stop (q : String) (limit : Nat)
    (cs : List (String × FSNode)) (cp : String) (acc : List VFile)
    (h : limit ≤ acc.length) :
    searchInItems q limit cs cp acc = Except.ok acc := by
  cases cs with
  | nil => rfl
  | cons hd rest =>
    obtain ⟨name, child⟩ := hd
    unfold searchInItems
    rw [if_pos h]

theorem searchInItems_file (q : String) (limit : Nat) (name c : String)
    (rest : List (String × FSNode)) (cp : String) (acc : List VFile)
    (h : ¬ limit ≤ acc.length) :
    searchInItems q limit ((name, FSNode.file c) :: rest) cp acc =
      searchInItems q limit rest cp
        (if matchesQ q name then
          acc ++ [searchEntry cp name (FSNode.file c)]
        else acc) := by
  simp [searchInItems, h]

theorem searchInItems_dir (q : String) (limit : Nat) (name : String)
    (cs2 rest : List (String × FSNode)) (cp : String) (acc : List VFile)
    (h : ¬ limit ≤ acc.length) :
    searchInItems q limit ((name, FSNode.dir cs2) :: rest) cp acc =
      (match searchInDirectory q limit (FSNode.dir cs2) (relPath cp name)
          (if matchesQ q name then
            acc ++ [searchEntry cp name (FSNode.dir cs2)]
          else acc) with
      | Except.error e => Except.error e
      | Except.ok r2 => searchInItems q limit rest cp r2) := by
  simp [searchInItems, h]

theorem searchInDirectory_go (q : String) (limit : Nat)
    (cs : List (String × FSNode)) (cp : String) (acc : List VFile)
    (h : ¬ limit ≤ acc.length) :
    searchInDirectory q limit (FSNode.dir cs) cp acc =
      searchInItems q limit cs cp acc := by
  simp [searchInDirectory, h]

theorem preorderItems_cons (name : String) (child : FSNode)
    (rest : List (String × FSNode)) (cp : String) :
    preorderItems ((name, child) :: rest) cp =
      searchEntry cp name child ::
        (preorderDir child (relPath cp name) ++ preorderItems rest cp) := rfl

theorem filterMatch_cons_pos {q : String} (e : VFile) (l : List VFile)
    (h : matchesQ q e.name = true) :
    filterMatch q (e :: l) = e :: filterMatch q l := by
  simp [filterMatch, List.filter_cons, h]

theorem filterMatch_cons_neg {q : String} (e : VFile) (l : List VFile)
    (h : ¬ matchesQ q e.name = true) :
    filterMatch q (e :: l) = filterMatch q l := by
  simp [filterMatch, List.filter_cons, h]

theorem filterMatch_append (q : String) (l1 l2 : List VFile) :
    filterMatch q (l1 ++ l2) = filterMatch q l1 ++ filterMatch q l2 := by
  simp [filterMatch, List.filter_append]

theorem searchInDirectory_stop (q : String) (limit : Nat) (node : FSNode)
    (cp : String) (acc : List VFile) (h : limit ≤ acc.length) :
    searchInDirectory q limit node cp acc = Except.ok acc := by
  unfold searchInDirectory
  rw [if_pos h]

theorem searchInItems_spec (q : String) (limit : Nat) :
    ∀ (n : Nat) (cs : List (String × FSNode)) (cp : String) (acc : List VFile),
      sizeOf cs ≤ n → faultFreeList cs = true → acc.length ≤ limit →
      searchInItems q limit cs cp acc =
        Except.ok (acc ++
          (filterMatch q (preorderItems cs cp)).take (limit - acc.length)) := by
  intro n
  induction n with
  | zero =>
    intro cs cp acc hsz _ _
    exfalso
    have hpos : 0 < sizeOf cs := by
      cases cs <;> simp
    omega
  | succ n ihn =>
    intro cs cp acc hsz hff hacc
    cases cs with
    | nil =>
      simp [searchInItems, preorderItems, filterMatch]
    | cons hd rest =>
      obtain ⟨name, child⟩ := hd
      have hffs : child.faultFree = true ∧ faultFreeList rest = true := by
        simpa [faultFreeList, Bool.and_eq_true] using hff
      have hszrest : sizeOf rest ≤ n := by
        simp at hsz
        omega
      by_cases hstop : limit ≤ acc.length
      · rw [searchInItems_stop q limit _ cp acc hstop]
        rw [show limit - acc.length = 0 from by omega]
        simp
      · cases child with
        | fault =>
          exfalso
          have hf := hffs.1
          simp [FSNode.faultFree] at hf
        | file c =>
          rw [searchInItems_file q limit name c rest cp acc hstop]
          rw [preorderItems_cons]
          rw [show preorderDir (FSNode.file c) (relPath cp name) = [] from rfl]
          rw [List.nil_append]
          by_cases hm : matchesQ q name = true
          · rw [if_pos hm]
            rw [ihn rest cp (acc ++ [searchEntry cp name (FSNode.file c)])
              hszrest hffs.2 (by simp; omega)]
            rw [filterMatch_cons_pos _ _ hm]
            obtain ⟨k, hk⟩ : ∃ k, limit - acc.length = k + 1 :=
              ⟨limit - acc.length - 1, by omega⟩
            rw [hk, List.take_succ_cons]
            rw [show limit -
                (acc ++ [searchEntry cp name (FSNode.file c)]).length = k from by
              simp
              omega]
            simp
          · rw [if_neg hm]
            rw [ihn rest cp acc hszrest hffs.2 hacc]
            rw [filterMatch_cons_neg _ _ hm]
        | dir cs2 =>
          have hszcs2 : sizeOf cs2 ≤ n := by
            simp at hsz
            omega
          have hffcs2 : faultFreeList cs2 = true := by
            have hf := hffs.1
            simpa [FSNode.faultFree] using hf
          rw [searchInItems_dir q limit name cs2 rest cp acc hstop]
          rw [preorderItems_cons]
          rw [show preorderDir (FSNode.dir cs2) (relPath cp name) =
              preorderItems cs2 (relPath cp name) from rfl]
          by_cases hm : matchesQ q name = true
          · rw [if_pos hm]
            by_cases hstop2 :
                limit ≤ (acc ++ [searchEntry cp name (FSNode.dir cs2)]).length
            · rw [searchInDirectory_stop q limit _ _ _ hstop2]
              show searchInItems q limit rest cp
                (acc ++ [searchEntry cp name (FSNode.dir cs2)]) = _
              rw [searchInItems_stop q limit rest cp _ hstop2]
              rw [filterMatch_cons_pos _ _ hm]
              rw [show limit - acc.length = 1 from by simp at hstop2; omega]
              simp
            · rw [searchInDirectory_go q limit cs2 _ _ hstop2]
              rw [ihn cs2 (relPath cp name)
                (acc ++ [searchEntry cp name (FSNode.dir cs2)])
                hszcs2 hffcs2 (Nat.lt_of_not_le hstop2).le]
              show searchInItems q limit rest cp _ = _
              rw [ihn rest cp
                ((acc ++ [searchEntry cp name (FSNode.dir cs2)]) ++
                  (filterMatch q (preorderItems cs2 (relPath cp name))).take
                    (limit -
                      (acc ++ [searchEntry cp name (FSNode.dir cs2)]).length))
                hszrest hffs.2 (by simp [List.length_take]; omega)]
              rw [filterMatch_cons_pos _ _ hm, filterMatch_append]
              congr 1
              obtain ⟨k, hk⟩ : ∃ k, limit - acc.length = k + 1 :=
                ⟨limit - acc.length - 1, by omega⟩
              rw [hk, List.take_succ_cons, List.take_append_eq_append_take]
              rw [show limit -
                  (acc ++ [searchEntry cp name (FSNode.dir cs2)]).length = k from by
                simp
                omega]
              rw [show limit -
                  ((acc ++ [searchEntry cp name (FSNode.dir cs2)]) ++
                    (filterMatch q
                      (preorderItems cs2 (relPath cp name))).take k).length =
                  k - (filterMatch q
                    (preorderItems cs2 (relPath cp name))).length from by
                simp [List.length_take]
                omega]
              simp [List.append_assoc]
          · rw [if_neg hm]
            rw [searchInDirectory_go q limit cs2 _ _ hstop]
            rw [ihn cs2 (relPath cp name) acc hszcs2 hffcs2 hacc]
            show searchInItems q limit rest cp _ = _
            rw [ihn rest cp
              (acc ++ (filterMatch q (preorderItems cs2 (relPath cp name))).take
                (limit - acc.length))
              hszrest hffs.2 (by simp [List.length_take]; omega)]
            rw [filterMatch_cons_neg _ _ hm, filterMatch_append]
            congr 1
            rw [List.take_append_eq_append_take]
            rw [show limit -
                (acc ++ (filterMatch q
                  (preorderItems cs2 (relPath cp name))).take
                    (limit - acc.length)).length =
                (limit - acc.length) - (filterMatch q
                  (preorderItems cs2 (relPath cp name))).length from by
              simp [List.length_take]
              omega]
            rw [List.append_assoc]

/- ### C6: the filesystem search walk -/

/-- C6: on any fault-free tree the search walk equals taking the first
limit elements of the depth-first preorder filtered by the
case-insensitive substring match on names: an entry is collected exactly
when its name matches, directories are recursed into regardless of their
own match status, and collection stops as soon as the limit is reached. -/
theorem searchFilesInFileSystem_dfs (tree : FSNode) (q : String)
    (limit : Nat) (hff : tree.faultFree = true) :
    searchFilesInFileSystem tree q limit =
      (filterMatch q (preorderDir tree "")).take limit := by
  unfold searchFilesInFileSystem
  by_cases hl : limit = 0
  · subst hl
    rw [searchInDirectory_stop q 0 tree "" [] (by simp)]
    simp
  · have hnle : ¬ (limit ≤ ([] : List VFile).length) := by
      simp
      omega
    cases tree with
    | fault => simp [FSNode.faultFree] at hff
    | file c =>
      have hdir : searchInDirectory q limit (FSNode.file c) "" [] =
          Except.error () := by
        unfold searchInDirectory
        rw [if_neg hnle]
      rw [hdir]
      simp [preorderDir, filterMatch]
    | dir cs =>
      have hffl : faultFreeList cs = true := by
        simpa [FSNode.faultFree] using hff
      rw [searchInDirectory_go q limit cs "" [] hnle]
      rw [searchInItems_spec q limit (sizeOf cs) cs "" [] le_rfl hffl (by simp)]
      rw [show preorderDir (FSNode.dir cs) "" = preorderItems cs "" from rfl]
      simp [List.take_take]

/-- C6 witness: the walk over the concrete fixture tree equals the
filtered preorder truncation. -/
theorem searchFilesInFileSystem_dfs_witness :
    FSNode.faultFree treeSmall = true ∧
    searchFilesInFileSystem treeSmall "a" 50 =
      (filterMatch "a" (preorderDir treeSmall "")).take 50 :=
  ⟨rfl, searchFilesInFileSystem_dfs treeSmall "a" 50 rfl⟩

end TestReportBackend
